import Mathlib

/-!
Verification of the openMSX bus dispatcher (`MSXMultiMemDevice`), the
AmdFlash command state machine (`AmdFlash`) and the PAC cartridge
(`MSXPac`) against their natural-language specification.

The definitions below are a shallow embedding of the C++ sources:
  - src/cpu/MSXMultiMemDevice.cc
  - src/memory/AmdFlash.cc
  - src/memory/MSXPac.cc
Unsigned 32-bit arithmetic is modelled on `Nat` with explicit `% 2^32`
where the C++ code relies on wrap-around.
-/

namespace OpenMSX

/-- 2^32, the modulus of C++ `unsigned` arithmetic. -/
def U32 : Nat := 4294967296

namespace MultiMem

/-- One entry of the ownership table (`MSXMultiMemDevice::Range`).
The C++ `MSXDevice*` pointer is modelled by a numeric device identity. -/
structure Range where
  base : Nat
  size : Nat
  device : Nat
  deriving DecidableEq, Repr

/-- `isInside(x, start, size)`: unsigned computation `(x - start) < size`,
with wrap-around at 2^32 for the subtraction. -/
def isInside (x start size : Nat) : Bool :=
  (x + U32 - start) % U32 < size

/-- `overlap(start1, size1, start2, size2)`: the first or the last address
of the first range lies inside the second range.  `start1 + size1 - 1` is
computed in unsigned arithmetic. -/
def overlap (start1 size1 start2 size2 : Nat) : Bool :=
  isInside start1 start2 size2 ||
  isInside ((start1 + size1 + U32 - 1) % U32) start2 size2

/-- The sentinel range added by the constructor: the full 64 KB address
space, owned by the `DummyDevice` (modelled as device identity 0). -/
def sentinel : Range := ⟨0, 0x10000, 0⟩

/-- The table right after construction: only the sentinel. -/
def initialRanges : List Range := [sentinel]

/-- `canAdd(base, size)`: no overlap with any entry except the last
(sentinel) one. -/
def canAdd (ranges : List Range) (base size : Nat) : Bool :=
  ranges.dropLast.all fun r => ! overlap base size r.base r.size

/-- Configuration-time errors of the dispatcher. -/
inductive BusError
  | OverlapViolation
  | NotFound
  deriving DecidableEq, Repr

/-- `add(device, base, size)`: the `assert(canAdd(base, size))` is modelled
as a guard; on success the new range is inserted at the front of the
table, on failure the add is rejected with `OverlapViolation`. -/
def add (ranges : List Range) (device base size : Nat) :
    Option BusError × List Range :=
  if canAdd ranges base size then
    (none, Range.mk base size device :: ranges)
  else
    (some BusError.OverlapViolation, ranges)

/-- `remove(device, base, size)`: find the first entry equal to the
`(base, size, device)` triple and erase it; the `assert(it != end)` is
modelled as a `NotFound` failure. -/
def remove (ranges : List Range) (device base size : Nat) :
    Option BusError × List Range :=
  if Range.mk base size device ∈ ranges then
    (none, ranges.erase (Range.mk base size device))
  else
    (some BusError.NotFound, ranges)

/-- `searchRange(address)`: first entry containing the address; the
`UNREACHABLE` fall-through is modelled as `none`. -/
def searchRange (ranges : List Range) (address : Nat) : Option Range :=
  ranges.find? fun r => isInside address r.base r.size

/-- `searchDevice(address)`. -/
def searchDevice (ranges : List Range) (address : Nat) : Option Nat :=
  (searchRange ranges address).map Range.device

/-- Accessors of the registered devices (`MSXDevice::readMem` etc.),
abstracted as an environment indexed by device identity. -/
structure DevEnv where
  devRead : Nat → Nat → Nat → Nat
  devPeek : Nat → Nat → Nat → Nat
  devWrite : Nat → Nat → Nat → Nat → Nat

/-- `readMem(address, time)`: resolve, then invoke the owning device. -/
def readMem (env : DevEnv) (ranges : List Range) (address time : Nat) :
    Option Nat :=
  (searchDevice ranges address).map fun d => env.devRead d address time

/-- `peekMem(address, time)`: resolve, then invoke the owning device. -/
def peekMem (env : DevEnv) (ranges : List Range) (address time : Nat) :
    Option Nat :=
  (searchDevice ranges address).map fun d => env.devPeek d address time

/-- `writeMem(address, value, time)`: resolve, then invoke the owning
device; the device's write effect is the environment's opaque result. -/
def writeMem (env : DevEnv) (ranges : List Range) (address value time : Nat) :
    Option Nat :=
  (searchDevice ranges address).map fun d => env.devWrite d address value time

/-- The constructor invariant: the sentinel is the last table entry. -/
def SentinelLast (ranges : List Range) : Prop :=
  ranges.getLast? = some sentinel

/-- Mathematical intersection of two address ranges, following the
specification's wording ("the requested range intersects a registered
range"); used to compare the spec with the code's `overlap`. -/
def specIntersects (b1 s1 b2 s2 : Nat) : Prop :=
  ∃ x, (b1 ≤ x ∧ x < b1 + s1) ∧ (b2 ≤ x ∧ x < b2 + s2)

end MultiMem

namespace AmdFlash

/-- `AmdFlash::State`: the mode of the flash chip. -/
inductive State
  | ST_IDLE
  | ST_IDENT
  deriving DecidableEq, Repr

/-- One entry of the command buffer (`AmdFlash::AmdCmd`). -/
structure AmdCmd where
  addr : Nat
  value : Nat
  deriving DecidableEq, Repr

/-- `AmdFlash::SectorInfo`. -/
structure SectorInfo where
  size : Nat
  writeProtected : Bool
  deriving DecidableEq, Repr

/-- Capacity of the command buffer.  Modelled from the spec: `AmdFlash.hh`
is not among the sources; the spec's "device-internal shift-register of
recently written command bytes" has a fixed capacity `MAX_CMD_SIZE`
(8 entries in the header), strictly larger than the longest command
prefix (5 bytes plus the command byte) kept across a `write`. -/
def MAX_CMD_SIZE : Nat := 8

/-- Immutable configuration of an `AmdFlash` chip: the sector layout, the
device `ID`, the addressing mode, and the read-only backing ROM contents
with their size (the `rom` constructor parameter). -/
structure FlashCfg where
  sectorInfo : List SectorInfo
  ID : Nat
  use12bitAddressing : Bool
  rom : Nat → Nat
  romSize : Nat

/-- Mutable state of an `AmdFlash` chip.  `ram` is the writable backing
store, `cmd`/`cmdIdx` the command-matching buffer, `state` the mode.
`invalidations` logs every `invalidateMemCache(start, size)` call issued
through the mother board's CPU. -/
structure FlashState where
  ram : Nat → Nat
  cmd : Nat → AmdCmd
  cmdIdx : Nat
  state : State
  vppWpPinLow : Bool
  invalidations : List (Nat × Nat)

/-- `getSize()`: total flash size, the sum of all sector sizes. -/
def getSize (cfg : FlashCfg) : Nat :=
  (cfg.sectorInfo.map SectorInfo.size).sum

/-- `writeAddress` as computed by `init`: the offset of each writable
sector inside the RAM image, `-1` for a write-protected sector. -/
def writeAddressList : List SectorInfo → Nat → List Int
  | [], _ => []
  | s :: rest, acc =>
    if s.writeProtected then (-1 : Int) :: writeAddressList rest acc
    else (acc : Int) :: writeAddressList rest (acc + s.size)

/-- `writableSize` as computed by `init`: total size of all writable
sectors; this is the size of the RAM image, and the RAM object exists
iff it is non-zero. -/
def writableSize (cfg : FlashCfg) : Nat :=
  ((cfg.sectorInfo.filter fun s => ! s.writeProtected).map SectorInfo.size).sum

/-- `writeAddress[sector]` lookup. -/
def writeAddressAt (cfg : FlashCfg) (sector : Nat) : Int :=
  (writeAddressList cfg.sectorInfo 0).getD sector (-1)

/-- Loop of `getSectorInfo`: walk the sector list until the remaining
offset falls inside a sector; yields `(sector, sectorSize, offset)`. -/
def sectorWalk : List SectorInfo → Nat → Nat → Nat × Nat × Nat
  | [], sector, address => (sector, 0, address)
  | s :: rest, sector, address =>
    if address ≥ s.size then sectorWalk rest (sector + 1) (address - s.size)
    else (sector, s.size, address)

/-- `getSectorInfo(address)`: the address is first masked to the
power-of-two flash size. -/
def getSectorInfo (cfg : FlashCfg) (address : Nat) : Nat × Nat × Nat :=
  sectorWalk cfg.sectorInfo 0 (Nat.land address (getSize cfg - 1))

/-- `isSectorWritable(sector)`. -/
def isSectorWritable (cfg : FlashCfg) (st : FlashState) (sector : Nat) : Bool :=
  if st.vppWpPinLow && (sector == 0 || sector == 1) then false
  else writeAddressAt cfg sector != -1

/-- Where `readAddress[sector]` points: into the RAM image, into the ROM,
or nowhere (a null pointer). -/
inductive RdSrc
  | ram (base : Nat)
  | rom (off : Nat)

/-- `readAddress` as computed by `init` (at construction `vppWpPinLow` is
still false, so `isSectorWritable(i)` is `writeAddress[i] != -1`): a
writable sector reads from the RAM image, a read-only sector lying fully
inside the ROM reads from the ROM, and a read-only sector reaching past
the ROM end is null. -/
def readAddressGo (romSize : Nat) :
    List SectorInfo → List Int → Nat → List (Option RdSrc)
  | [], _, _ => []
  | _ :: rest, [], offset => none :: readAddressGo romSize rest [] offset
  | s :: rest, wa :: was, offset =>
    (if wa != -1 then some (RdSrc.ram wa.toNat)
     else if offset + s.size ≤ romSize then some (RdSrc.rom offset)
     else none) :: readAddressGo romSize rest was (offset + s.size)

/-- `readAddress[sector]` lookup. -/
def readAddressAt (cfg : FlashCfg) (sector : Nat) : Option RdSrc :=
  (readAddressGo cfg.romSize cfg.sectorInfo
    (writeAddressList cfg.sectorInfo 0) 0).getD sector none

/-- Dereference a `readAddress` pointer at `offset`, reading the current
RAM or ROM contents. -/
def readSrc (cfg : FlashCfg) (st : FlashState) : RdSrc → Nat → Nat
  | RdSrc.ram b, offset => st.ram (b + offset)
  | RdSrc.rom o, offset => cfg.rom (o + offset)

/-- `peek(address)` (a `const` member function). -/
def peek (cfg : FlashCfg) (st : FlashState) (address : Nat) : Nat :=
  let si := getSectorInfo cfg address
  if st.state = State.ST_IDLE then
    match readAddressAt cfg si.1 with
    | some src => readSrc cfg st src si.2.2
    | none => 0xFF
  else
    let address1 := if cfg.use12bitAddressing then address / 2 else address
    match address1 % 4 with
    | 0 => cfg.ID / 0x100
    | 1 => cfg.ID % 0x100
    | 2 => if isSectorWritable cfg st si.1 then 0 else 1
    | _ => 1

/-- `read(address)`: "note: after a read we stay in the same mode" — the
value is `peek` and the state is returned unchanged. -/
def read (cfg : FlashCfg) (st : FlashState) (address : Nat) : Nat × FlashState :=
  (peek cfg st address, st)

/-- `invalidateMemCache(start, size)` routed through the mother board:
append the range to the invalidation log. -/
def invalidateMemCache (st : FlashState) (start size : Nat) : FlashState :=
  { st with invalidations := st.invalidations ++ [(start, size)] }

/-- `setState(newState)`: a no-op when the mode is unchanged, otherwise
record the new mode and coarsely invalidate the full 64 KB range. -/
def setState (st : FlashState) (newState : State) : FlashState :=
  if st.state = newState then st
  else invalidateMemCache { st with state := newState } 0x0000 0x10000

/-- `reset()`. -/
def reset (st : FlashState) : FlashState :=
  setState { st with cmdIdx := 0 } State.ST_IDLE

/-- `SRAM::memset(addr, value, size)` on the RAM image. -/
def ramMemset (ram : Nat → Nat) (start len value : Nat) : Nat → Nat :=
  fun i => if start ≤ i ∧ i < start + len then value else ram i

/-- `SRAM::write(addr, value)` on the RAM image. -/
def ramWrite (ram : Nat → Nat) (addr value : Nat) : Nat → Nat :=
  fun i => if i = addr then value else ram i

/-- `partialMatch(len, dataSeq)`: the first `min len cmdIdx` buffered
command bytes match the expected address pattern (`0x555` / `0x2aa`,
after the 12-bit-addressing shift and an 11-bit mask) and the expected
data bytes. -/
def partialMatch (cfg : FlashCfg) (st : FlashState)
    (len : Nat) (dataSeq : List Nat) : Bool :=
  (List.range (min len st.cmdIdx)).all fun i =>
    let addr := if cfg.use12bitAddressing then (st.cmd i).addr / 2 else (st.cmd i).addr
    (addr % 0x800 == [0x555, 0x2aa].getD ([0, 1, 0, 0, 1].getD i 0) 0) &&
    ((st.cmd i).value == dataSeq.getD i 0)

/-- `checkCommandReset()`: always reports "not still matching"; issues a
`reset()` when the first buffered byte is `0xf0`. -/
def checkCommandReset (st : FlashState) : Bool × FlashState :=
  if (st.cmd 0).value == 0xf0 then (false, reset st) else (false, st)

/-- `checkCommandEraseSector()`. -/
def checkCommandEraseSector (cfg : FlashCfg) (st : FlashState) : Bool × FlashState :=
  if partialMatch cfg st 5 [0xaa, 0x55, 0x80, 0xaa, 0x55] then
    if st.cmdIdx < 6 then (true, st)
    else if (st.cmd 5).value == 0x30 then
      let si := getSectorInfo cfg (st.cmd 5).addr
      if isSectorWritable cfg st si.1 then
        let ram1 := ramMemset st.ram (writeAddressAt cfg si.1).toNat si.2.1 0xff
        (false, { st with ram := ram1 })
      else (false, st)
    else (false, st)
  else (false, st)

/-- `checkCommandEraseChip()`. -/
def checkCommandEraseChip (cfg : FlashCfg) (st : FlashState) : Bool × FlashState :=
  if partialMatch cfg st 5 [0xaa, 0x55, 0x80, 0xaa, 0x55] then
    if st.cmdIdx < 6 then (true, st)
    else if (st.cmd 5).value == 0x10 then
      if 0 < writableSize cfg then
        (false, { st with ram := ramMemset st.ram 0 (writableSize cfg) 0xff })
      else (false, st)
    else (false, st)
  else (false, st)

/-- One iteration of the programming loop in `checkCommandProgramHelper`:
AND-program one buffered byte into its (writable) sector. -/
def programOne (cfg : FlashCfg) (st : FlashState) (i : Nat) : FlashState :=
  let si := getSectorInfo cfg (st.cmd i).addr
  if isSectorWritable cfg st si.1 then
    let ramAddr := (writeAddressAt cfg si.1).toNat + si.2.2
    let v := Nat.land (st.ram ramAddr) (st.cmd i).value
    { st with ram := ramWrite st.ram ramAddr v }
  else st

/-- `checkCommandProgramHelper(numBytes, cmdSeq)`. -/
def checkCommandProgramHelper (cfg : FlashCfg) (st : FlashState)
    (numBytes : Nat) (cmdSeq : List Nat) : Bool × FlashState :=
  if partialMatch cfg st cmdSeq.length cmdSeq then
    if st.cmdIdx < cmdSeq.length + numBytes then (true, st)
    else (false, (List.range numBytes).foldl
      (fun s k => programOne cfg s (cmdSeq.length + k)) st)
  else (false, st)

/-- `checkCommandProgram()`. -/
def checkCommandProgram (cfg : FlashCfg) (st : FlashState) : Bool × FlashState :=
  checkCommandProgramHelper cfg st 1 [0xaa, 0x55, 0xa0]

/-- `checkCommandDoubleByteProgram()`. -/
def checkCommandDoubleByteProgram (cfg : FlashCfg) (st : FlashState) : Bool × FlashState :=
  checkCommandProgramHelper cfg st 2 [0x50]

/-- `checkCommandQuadrupleByteProgram()`. -/
def checkCommandQuadrupleByteProgram (cfg : FlashCfg) (st : FlashState) : Bool × FlashState :=
  checkCommandProgramHelper cfg st 4 [0x56]

/-- `checkCommandManufacturer()`: on a full 3-byte match enter `ST_IDENT`;
still matching while fewer than 4 bytes are buffered. -/
def checkCommandManufacturer (cfg : FlashCfg) (st : FlashState) : Bool × FlashState :=
  if partialMatch cfg st 3 [0xaa, 0x55, 0x90] then
    let st1 := if st.cmdIdx == 3 then setState st State.ST_IDENT else st
    if st.cmdIdx < 4 then (true, st1) else (false, st1)
  else (false, st)

/-- The `||` chain of `checkCommandXXX()` calls in `write`, with the side
effects of each call threaded left to right per the short-circuit
evaluation of `||`; when no command is still matching, `reset()`. -/
def writeChecks (cfg : FlashCfg) (st : FlashState) : FlashState :=
  let r1 := checkCommandManufacturer cfg st
  if r1.1 then r1.2 else
  let r2 := checkCommandEraseSector cfg r1.2
  if r2.1 then r2.2 else
  let r3 := checkCommandProgram cfg r2.2
  if r3.1 then r3.2 else
  let r4 := checkCommandDoubleByteProgram cfg r3.2
  if r4.1 then r4.2 else
  let r5 := checkCommandQuadrupleByteProgram cfg r4.2
  if r5.1 then r5.2 else
  let r6 := checkCommandEraseChip cfg r5.2
  if r6.1 then r6.2 else
  let r7 := checkCommandReset r6.2
  if r7.1 then r7.2 else reset r7.2

/-- `write(address, value)`: append the byte to the command buffer, then
run the command-matching chain. -/
def write (cfg : FlashCfg) (st : FlashState) (address value : Nat) : FlashState :=
  writeChecks cfg
    { st with
      cmd := fun i => if i = st.cmdIdx then AmdCmd.mk address value else st.cmd i,
      cmdIdx := st.cmdIdx + 1 }

/-- A finite sequence of `write` calls, applied in order. -/
def execWrites (cfg : FlashCfg) : FlashState → List (Nat × Nat) → FlashState
  | st, [] => st
  | st, (a, v) :: rest => execWrites cfg (write cfg st a v) rest

end AmdFlash

namespace MSXPac

/-- Mutable state of the PAC cartridge: the 0x1FFE-byte SRAM, the two
control registers, the enable flag, and a log of every
`invalidateMemCache(start, size)` call. -/
structure PacState where
  sram : Nat → Nat
  r1ffe : Nat
  r1fff : Nat
  sramEnabled : Bool
  invalidations : List (Nat × Nat)

/-- `checkSramEnable()`. -/
def checkSramEnable (st : PacState) : PacState :=
  let newEnabled := st.r1ffe == 0x4D && st.r1fff == 0x69
  if st.sramEnabled != newEnabled then
    { st with sramEnabled := newEnabled,
              invalidations := st.invalidations ++ [(0x0000, 0x10000)] }
  else st

/-- `reset(time)`; the constructor ends by calling this. -/
def reset (st : PacState) (_time : Nat) : PacState :=
  { st with sramEnabled := false, r1ffe := 0xFF, r1fff := 0xFF }

/-- `readMem(address, time)`; the address is masked with `0x3FFF` and the
time parameter is ignored by the source. -/
def readMem (st : PacState) (address : Nat) (_time : Nat) : Nat :=
  let address := address % 0x4000
  if st.sramEnabled then
    if address < 0x1FFE then st.sram address
    else if address = 0x1FFE then st.r1ffe
    else if address = 0x1FFF then st.r1fff
    else 0xFF
  else 0xFF

/-- `writeMem(address, value, time)`. -/
def writeMem (st : PacState) (address value : Nat) (_time : Nat) : PacState :=
  let address := address % 0x4000
  if address = 0x1FFE then checkSramEnable { st with r1ffe := value }
  else if address = 0x1FFF then checkSramEnable { st with r1fff := value }
  else if st.sramEnabled && decide (address < 0x1FFE) then
    { st with sram := fun i => if i = address then value else st.sram i }
  else st

/-- The C9 invariant: the enable flag mirrors the magic register values. -/
def Inv (st : PacState) : Prop :=
  st.sramEnabled = (st.r1ffe == 0x4D && st.r1fff == 0x69)

end MSXPac

/-! ## Theorems about the bus dispatcher -/

namespace MultiMem

/-- Characterisation of `isInside` when no unsigned wrap-around occurs. -/
theorem isInside_eq_true_iff (x start size : Nat) (hx : x ≤ 0x20000)
    (hstart : start ≤ 0x10000) (hsize : size ≤ 0x10000) :
    isInside x start size = true ↔ start ≤ x ∧ x < start + size := by
  simp only [isInside, U32, decide_eq_true_eq]
  omega

/-- The sentinel contains every address of the 64 KB space. -/
theorem isInside_sentinel (a : Nat) (ha : a < 0x10000) :
    isInside a sentinel.base sentinel.size = true := by
  show isInside a 0 0x10000 = true
  simp only [isInside, U32, decide_eq_true_eq]
  omega

/-- A table whose last entry is the sentinel splits off the sentinel. -/
theorem ranges_eq_dropLast_append_sentinel (ranges : List Range)
    (hwf : SentinelLast ranges) :
    ranges.dropLast ++ [sentinel] = ranges := by
  simp only [SentinelLast] at hwf
  have hne : ranges ≠ [] := by
    intro h
    rw [h] at hwf
    simp at hwf
  rw [List.getLast?_eq_getLast ranges hne] at hwf
  have hlast := Option.some.inj hwf
  rw [← hlast]
  exact List.dropLast_append_getLast hne

/-- The sentinel is a member of a well-formed table. -/
theorem sentinel_mem (ranges : List Range) (hwf : SentinelLast ranges) :
    sentinel ∈ ranges := by
  rw [← ranges_eq_dropLast_append_sentinel ranges hwf]
  exact List.mem_append_right _ (List.mem_singleton.mpr rfl)

/-- Resolution of an in-range address on a well-formed table always
yields some containing range. -/
theorem searchRange_isSome (ranges : List Range) (hwf : SentinelLast ranges)
    (a : Nat) (ha : a < 0x10000) :
    ∃ r, searchRange ranges a = some r ∧ isInside a r.base r.size = true := by
  have h1 : (ranges.find? fun r => isInside a r.base r.size).isSome :=
    List.find?_isSome.mpr ⟨sentinel, sentinel_mem ranges hwf, isInside_sentinel a ha⟩
  obtain ⟨r, hr⟩ := Option.isSome_iff_exists.mp h1
  have hp := List.find?_some hr
  exact ⟨r, hr, hp⟩

/-- C2: on a table whose last entry is the sentinel, resolving an address
below 0x10000 returns the first containing range scanning from the front
(the most recently added entry, since a successful `add` inserts at the
front), falls back to the sentinel when no non-sentinel range contains
the address, and never fails. -/
theorem searchRange_resolution (ranges : List Range) (hwf : SentinelLast ranges)
    (a : Nat) (ha : a < 0x10000) :
    (∃ r, searchRange ranges a = some r ∧ isInside a r.base r.size = true) ∧
    ((∀ r ∈ ranges.dropLast, isInside a r.base r.size = false) →
      searchRange ranges a = some sentinel) ∧
    (∀ device base size ranges2,
      add ranges device base size = (none, ranges2) →
      isInside a base size = true →
      searchRange ranges2 a = some (Range.mk base size device)) := by
  refine ⟨searchRange_isSome ranges hwf a ha, ?_, ?_⟩
  · intro hall
    simp only [searchRange]
    rw [← ranges_eq_dropLast_append_sentinel ranges hwf, List.find?_append]
    have hnone : (ranges.dropLast.find? fun r => isInside a r.base r.size) = none := by
      rw [List.find?_eq_none]
      intro x hx
      simp [hall x hx]
    rw [hnone, Option.none_or]
    exact List.find?_cons_of_pos _ (isInside_sentinel a ha)
  · intro device base size ranges2 hadd hin
    simp only [add] at hadd
    split at hadd
    · injection hadd with h1 h2
      subst h2
      simp only [searchRange]
      exact List.find?_cons_of_pos _ hin
    · simp at hadd

/-- Witness for C2 at a concrete table and address. -/
theorem searchRange_resolution_witness :
    (∃ r, searchRange [Range.mk 0x4000 0x2000 1, sentinel] 0x8000 = some r ∧
       isInside 0x8000 r.base r.size = true) ∧
    ((∀ r ∈ [Range.mk 0x4000 0x2000 1, sentinel].dropLast,
        isInside 0x8000 r.base r.size = false) →
      searchRange [Range.mk 0x4000 0x2000 1, sentinel] 0x8000 = some sentinel) ∧
    (∀ device base size ranges2,
      add [Range.mk 0x4000 0x2000 1, sentinel] device base size = (none, ranges2) →
      isInside 0x8000 base size = true →
      searchRange ranges2 0x8000 = some (Range.mk base size device)) :=
  searchRange_resolution [Range.mk 0x4000 0x2000 1, sentinel] rfl 0x8000 (by decide)

/-- C4: the dispatcher's `readMem`, `peekMem` and `writeMem` equal
resolving the address to its owning device and invoking that device's
accessor of the same name with address, value and time unchanged. -/
theorem dispatch_routes_through_device (env : DevEnv) (ranges : List Range)
    (hwf : SentinelLast ranges) (a : Nat) (ha : a < 0x10000) (v t : Nat) :
    ∃ d, searchDevice ranges a = some d ∧
      readMem env ranges a t = some (env.devRead d a t) ∧
      peekMem env ranges a t = some (env.devPeek d a t) ∧
      writeMem env ranges a v t = some (env.devWrite d a v t) := by
  obtain ⟨r, hr, -⟩ := searchRange_isSome ranges hwf a ha
  exact ⟨r.device, by simp [searchDevice, hr], by simp [readMem, searchDevice, hr],
    by simp [peekMem, searchDevice, hr], by simp [writeMem, searchDevice, hr]⟩

/-- Witness for C4 at a concrete environment, table, address and time. -/
theorem dispatch_routes_through_device_witness :
    ∃ d, searchDevice [Range.mk 0x4000 0x2000 7, sentinel] 0x4123 = some d ∧
      readMem (DevEnv.mk (fun d a t => d + a + t) (fun d a t => d + a + 2 * t)
          (fun d a v t => d + a + v + t))
        [Range.mk 0x4000 0x2000 7, sentinel] 0x4123 11 =
        some (d + 0x4123 + 11) ∧
      peekMem (DevEnv.mk (fun d a t => d + a + t) (fun d a t => d + a + 2 * t)
          (fun d a v t => d + a + v + t))
        [Range.mk 0x4000 0x2000 7, sentinel] 0x4123 11 =
        some (d + 0x4123 + 2 * 11) ∧
      writeMem (DevEnv.mk (fun d a t => d + a + t) (fun d a t => d + a + 2 * t)
          (fun d a v t => d + a + v + t))
        [Range.mk 0x4000 0x2000 7, sentinel] 0x4123 0x55 11 =
        some (d + 0x4123 + 0x55 + 11) :=
  dispatch_routes_through_device _ [Range.mk 0x4000 0x2000 7, sentinel] rfl
    0x4123 (by decide) 0x55 11

/-- C5: an `add` whose range cannot be added (the `canAdd` guard fails)
is rejected with `OverlapViolation` and returns the table exactly as it
was: nothing is inserted, removed or reordered. -/
theorem rejected_add_leaves_table_unchanged (ranges : List Range)
    (device base size : Nat) (h : canAdd ranges base size = false) :
    add ranges device base size = (some BusError.OverlapViolation, ranges) := by
  simp [add, h]

/-- Witness for C5 at a concrete overlapping add. -/
theorem rejected_add_leaves_table_unchanged_witness :
    canAdd [Range.mk 0x4000 0x2000 1, sentinel] 0x5000 0x2000 = false ∧
    add [Range.mk 0x4000 0x2000 1, sentinel] 2 0x5000 0x2000 =
      (some BusError.OverlapViolation, [Range.mk 0x4000 0x2000 1, sentinel]) :=
  ⟨by decide, rejected_add_leaves_table_unchanged _ 2 _ _ (by decide)⟩

/-- C6: `remove` erases exactly the first entry equal to the requested
`(base, size, device)` triple, leaving every other entry (the sentinel
included) unchanged and in order; when no exactly-matching entry is
registered it fails with `NotFound` and the table is untouched. -/
theorem remove_exact_entry (ranges : List Range) (device base size : Nat) :
    (Range.mk base size device ∈ ranges →
      ∃ l1 l2, Range.mk base size device ∉ l1 ∧
        ranges = l1 ++ Range.mk base size device :: l2 ∧
        remove ranges device base size = (none, l1 ++ l2)) ∧
    (Range.mk base size device ∉ ranges →
      remove ranges device base size = (some BusError.NotFound, ranges)) := by
  constructor
  · intro h
    obtain ⟨l1, l2, hnl, heq, her⟩ := List.exists_erase_eq h
    exact ⟨l1, l2, hnl, heq, by simp [remove, h, her]⟩
  · intro h
    simp [remove, h]

/-- Witness for C6: removing a registered entry and a missing entry. -/
theorem remove_exact_entry_witness :
    (∃ l1 l2, Range.mk 0x4000 0x2000 1 ∉ l1 ∧
      [Range.mk 0x4000 0x2000 1, sentinel] = l1 ++ Range.mk 0x4000 0x2000 1 :: l2 ∧
      remove [Range.mk 0x4000 0x2000 1, sentinel] 1 0x4000 0x2000 = (none, l1 ++ l2)) ∧
    remove [Range.mk 0x4000 0x2000 1, sentinel] 2 0x4000 0x2000 =
      (some BusError.NotFound, [Range.mk 0x4000 0x2000 1, sentinel]) :=
  ⟨(remove_exact_entry [Range.mk 0x4000 0x2000 1, sentinel] 1 0x4000 0x2000).1
      (by decide),
   (remove_exact_entry [Range.mk 0x4000 0x2000 1, sentinel] 2 0x4000 0x2000).2
      (by decide)⟩

/-- C7: from a table holding only the sentinel, adding X over
[0x4000, 0x6000) succeeds; adding Y over [0x5000, 0x7000) is then
rejected with `OverlapViolation`; adding Y over [0x6000, 0x8000)
instead succeeds. -/
theorem overlap_scenario :
    add initialRanges 1 0x4000 0x2000 =
      (none, [Range.mk 0x4000 0x2000 1, sentinel]) ∧
    add [Range.mk 0x4000 0x2000 1, sentinel] 2 0x5000 0x2000 =
      (some BusError.OverlapViolation, [Range.mk 0x4000 0x2000 1, sentinel]) ∧
    (add [Range.mk 0x4000 0x2000 1, sentinel] 2 0x6000 0x2000).1 = none := by
  refine ⟨?_, ?_, ?_⟩ <;> decide

/-- C1 counterexample: the table registers [0x5000, 0x5100); the request
[0x4000, 0x6000) intersects it (0x5000 lies in both ranges) yet `canAdd`
returns `true` and the `add` is accepted, because `overlap` only tests
whether an endpoint of the requested range lies inside a registered
range and misses strict containment. -/
theorem canAdd_accepts_containing_range :
    specIntersects 0x4000 0x2000 0x5000 0x100 ∧
    canAdd [Range.mk 0x5000 0x100 1, sentinel] 0x4000 0x2000 = true ∧
    (add [Range.mk 0x5000 0x100 1, sentinel] 2 0x4000 0x2000).1 = none :=
  ⟨⟨0x5000, by decide⟩, by decide, by decide⟩

/-- C1 (amended): an `add` is rejected exactly when the first or the last
address of the requested range lies inside some registered non-sentinel
range; in particular a rejection always marks a genuine intersection and
a request intersecting no registered range is always accepted — but a
request that strictly contains a registered range (both endpoints
outside it) is accepted despite the intersection. -/
theorem canAdd_endpoint_characterisation (ranges : List Range) (base size : Nat)
    (hbs : base + size ≤ 0x10000) (hs : 1 ≤ size)
    (hr : ∀ r ∈ ranges.dropLast, 1 ≤ r.size ∧ r.base + r.size ≤ 0x10000) :
    (canAdd ranges base size = false →
      ∃ r ∈ ranges.dropLast, specIntersects base size r.base r.size) ∧
    (canAdd ranges base size = true ↔
      ∀ r ∈ ranges.dropLast,
        isInside base r.base r.size = false ∧
        isInside (base + size - 1) r.base r.size = false) := by
  have hend : (base + size + U32 - 1) % U32 = base + size - 1 := by
    simp only [U32]
    omega
  constructor
  · intro hfalse
    simp only [canAdd, List.all_eq_false, Bool.not_eq_true', Bool.not_eq_false] at hfalse
    obtain ⟨r, hrmem, hov⟩ := hfalse
    refine ⟨r, hrmem, ?_⟩
    obtain ⟨hs2, hb2⟩ := hr r hrmem
    simp only [overlap, Bool.or_eq_true, hend] at hov
    rcases hov with hin | hin
    · have := (isInside_eq_true_iff base r.base r.size (by omega) (by omega)
        (by omega)).mp hin
      exact ⟨base, ⟨Nat.le_refl _, by omega⟩, this⟩
    · have := (isInside_eq_true_iff (base + size - 1) r.base r.size (by omega)
        (by omega) (by omega)).mp hin
      exact ⟨base + size - 1, ⟨by omega, by omega⟩, this⟩
  · simp only [canAdd, List.all_eq_true, Bool.not_eq_true', overlap,
      Bool.or_eq_false_iff, hend]

/-- Witness for the amended C1 at the counterexample's table. -/
theorem canAdd_endpoint_characterisation_witness :
    (canAdd [Range.mk 0x5000 0x100 1, sentinel] 0x4000 0x2000 = false →
      ∃ r ∈ [Range.mk 0x5000 0x100 1, sentinel].dropLast,
        specIntersects 0x4000 0x2000 r.base r.size) ∧
    (canAdd [Range.mk 0x5000 0x100 1, sentinel] 0x4000 0x2000 = true ↔
      ∀ r ∈ [Range.mk 0x5000 0x100 1, sentinel].dropLast,
        isInside 0x4000 r.base r.size = false ∧
        isInside (0x4000 + 0x2000 - 1) r.base r.size = false) :=
  canAdd_endpoint_characterisation [Range.mk 0x5000 0x100 1, sentinel]
    0x4000 0x2000 (by decide) (by decide) (by decide)

end MultiMem

/-! ## Theorems about the AmdFlash command state machine -/

namespace AmdFlash

/-- `setState` never touches the command index. -/
theorem setState_cmdIdx (st : FlashState) (s : State) :
    (setState st s).cmdIdx = st.cmdIdx := by
  simp only [setState, invalidateMemCache]
  split <;> rfl

/-- `reset` zeroes the command index. -/
theorem reset_cmdIdx (st : FlashState) : (reset st).cmdIdx = 0 := by
  simp only [reset]
  rw [setState_cmdIdx]

/-- `checkCommandManufacturer` keeps the command index and only reports a
still-matching prefix while fewer than 4 bytes are buffered. -/
theorem checkCommandManufacturer_cmdIdx (cfg : FlashCfg) (st : FlashState) :
    ((checkCommandManufacturer cfg st).2.cmdIdx = st.cmdIdx) ∧
    ((checkCommandManufacturer cfg st).1 = true → st.cmdIdx < 4) := by
  by_cases hp : partialMatch cfg st 3 [0xaa, 0x55, 0x90] = true <;>
    by_cases h3 : st.cmdIdx == 3 <;>
    by_cases h4 : st.cmdIdx < 4 <;>
    simp [checkCommandManufacturer, hp, h3, h4, setState_cmdIdx]

/-- `checkCommandEraseSector` keeps the command index and only reports a
still-matching prefix while fewer than 6 bytes are buffered. -/
theorem checkCommandEraseSector_cmdIdx (cfg : FlashCfg) (st : FlashState) :
    ((checkCommandEraseSector cfg st).2.cmdIdx = st.cmdIdx) ∧
    ((checkCommandEraseSector cfg st).1 = true → st.cmdIdx < 6) := by
  simp only [checkCommandEraseSector]
  split
  · split
    · next h => exact ⟨rfl, fun _ => h⟩
    · split
      · split <;> simp
      · simp
  · simp

/-- `checkCommandEraseChip` keeps the command index and only reports a
still-matching prefix while fewer than 6 bytes are buffered. -/
theorem checkCommandEraseChip_cmdIdx (cfg : FlashCfg) (st : FlashState) :
    ((checkCommandEraseChip cfg st).2.cmdIdx = st.cmdIdx) ∧
    ((checkCommandEraseChip cfg st).1 = true → st.cmdIdx < 6) := by
  simp only [checkCommandEraseChip]
  split
  · split
    · next h => exact ⟨rfl, fun _ => h⟩
    · split
      · split <;> simp
      · simp
  · simp

/-- `programOne` never touches the command index. -/
theorem programOne_cmdIdx (cfg : FlashCfg) (st : FlashState) (i : Nat) :
    (programOne cfg st i).cmdIdx = st.cmdIdx := by
  simp only [programOne]
  split <;> rfl

/-- The programming loop never touches the command index. -/
theorem programFold_cmdIdx (cfg : FlashCfg) (cmdSeq : List Nat) :
    ∀ (n : Nat) (s : FlashState),
      ((List.range n).foldl (fun s k => programOne cfg s (cmdSeq.length + k))
        s).cmdIdx = s.cmdIdx := by
  intro n
  induction n with
  | zero => intro s; rfl
  | succ m ih =>
    intro s
    rw [List.range_succ, List.foldl_append, List.foldl_cons, List.foldl_nil]
    rw [programOne_cmdIdx, ih]

/-- `checkCommandProgramHelper` keeps the command index and only reports a
still-matching prefix while fewer than `cmdLen + numBytes` bytes are
buffered. -/
theorem checkCommandProgramHelper_cmdIdx (cfg : FlashCfg) (st : FlashState)
    (numBytes : Nat) (cmdSeq : List Nat) :
    ((checkCommandProgramHelper cfg st numBytes cmdSeq).2.cmdIdx = st.cmdIdx) ∧
    ((checkCommandProgramHelper cfg st numBytes cmdSeq).1 = true →
      st.cmdIdx < cmdSeq.length + numBytes) := by
  simp only [checkCommandProgramHelper]
  split
  · split
    · next h => exact ⟨rfl, fun _ => h⟩
    · exact ⟨programFold_cmdIdx cfg cmdSeq numBytes st, by simp⟩
  · exact ⟨rfl, by simp⟩

/-- `checkCommandReset` always reports "not still matching". -/
theorem checkCommandReset_fst (st : FlashState) :
    (checkCommandReset st).1 = false := by
  simp only [checkCommandReset]
  split <;> rfl

/-- The command-matching chain either keeps a command index already at
most 5 or resets it to 0. -/
theorem writeChecks_cmdIdx (cfg : FlashCfg) (st : FlashState) :
    ((writeChecks cfg st).cmdIdx = st.cmdIdx ∧ st.cmdIdx ≤ 5) ∨
    (writeChecks cfg st).cmdIdx = 0 := by
  dsimp only [writeChecks]
  obtain ⟨he1, hb1⟩ := checkCommandManufacturer_cmdIdx cfg st
  by_cases h1 : (checkCommandManufacturer cfg st).1 = true
  · rw [if_pos h1]
    have := hb1 h1
    exact Or.inl ⟨he1, by omega⟩
  rw [if_neg h1]
  obtain ⟨he2, hb2⟩ :=
    checkCommandEraseSector_cmdIdx cfg (checkCommandManufacturer cfg st).2
  by_cases h2 : (checkCommandEraseSector cfg (checkCommandManufacturer cfg st).2).1 = true
  · rw [if_pos h2]
    have := hb2 h2
    rw [he1] at this
    exact Or.inl ⟨by rw [he2, he1], by omega⟩
  rw [if_neg h2]
  set s2 := (checkCommandEraseSector cfg (checkCommandManufacturer cfg st).2).2 with hs2
  have he12 : s2.cmdIdx = st.cmdIdx := by rw [hs2, he2, he1]
  obtain ⟨he3, hb3⟩ := checkCommandProgramHelper_cmdIdx cfg s2 1 [0xaa, 0x55, 0xa0]
  by_cases h3 : (checkCommandProgram cfg s2).1 = true
  · rw [if_pos h3]
    have := hb3 h3
    rw [he12] at this
    simp only [List.length_cons, List.length_nil] at this
    exact Or.inl ⟨by rw [show checkCommandProgram cfg s2 =
      checkCommandProgramHelper cfg s2 1 [0xaa, 0x55, 0xa0] from rfl, he3, he12],
      by omega⟩
  rw [if_neg h3]
  set s3 := (checkCommandProgram cfg s2).2 with hs3
  have he13 : s3.cmdIdx = st.cmdIdx := by
    rw [hs3, show checkCommandProgram cfg s2 =
      checkCommandProgramHelper cfg s2 1 [0xaa, 0x55, 0xa0] from rfl, he3, he12]
  obtain ⟨he4, hb4⟩ := checkCommandProgramHelper_cmdIdx cfg s3 2 [0x50]
  by_cases h4 : (checkCommandDoubleByteProgram cfg s3).1 = true
  · rw [if_pos h4]
    have := hb4 h4
    rw [he13] at this
    simp only [List.length_cons, List.length_nil] at this
    exact Or.inl ⟨by rw [show checkCommandDoubleByteProgram cfg s3 =
      checkCommandProgramHelper cfg s3 2 [0x50] from rfl, he4, he13], by omega⟩
  rw [if_neg h4]
  set s4 := (checkCommandDoubleByteProgram cfg s3).2 with hs4
  have he14 : s4.cmdIdx = st.cmdIdx := by
    rw [hs4, show checkCommandDoubleByteProgram cfg s3 =
      checkCommandProgramHelper cfg s3 2 [0x50] from rfl, he4, he13]
  obtain ⟨he5, hb5⟩ := checkCommandProgramHelper_cmdIdx cfg s4 4 [0x56]
  by_cases h5 : (checkCommandQuadrupleByteProgram cfg s4).1 = true
  · rw [if_pos h5]
    have := hb5 h5
    rw [he14] at this
    simp only [List.length_cons, List.length_nil] at this
    exact Or.inl ⟨by rw [show checkCommandQuadrupleByteProgram cfg s4 =
      checkCommandProgramHelper cfg s4 4 [0x56] from rfl, he5, he14], by omega⟩
  rw [if_neg h5]
  set s5 := (checkCommandQuadrupleByteProgram cfg s4).2 with hs5
  have he15 : s5.cmdIdx = st.cmdIdx := by
    rw [hs5, show checkCommandQuadrupleByteProgram cfg s4 =
      checkCommandProgramHelper cfg s4 4 [0x56] from rfl, he5, he14]
  obtain ⟨he6, hb6⟩ := checkCommandEraseChip_cmdIdx cfg s5
  by_cases h6 : (checkCommandEraseChip cfg s5).1 = true
  · rw [if_pos h6]
    have := hb6 h6
    rw [he15] at this
    exact Or.inl ⟨by rw [he6, he15], by omega⟩
  rw [if_neg h6]
  rw [checkCommandReset_fst]
  rw [if_neg (by simp)]
  exact Or.inr (reset_cmdIdx _)

/-- A single `write` either appends one byte to a still-matching command
prefix or resets the command index to 0; in both cases the index is at
most 5 on return. -/
theorem write_cmdIdx (cfg : FlashCfg) (st : FlashState) (a v : Nat) :
    ((write cfg st a v).cmdIdx = st.cmdIdx + 1 ∧ st.cmdIdx + 1 ≤ 5) ∨
    (write cfg st a v).cmdIdx = 0 := by
  simp only [write]
  have h := writeChecks_cmdIdx cfg
    { st with
      cmd := fun i => if i = st.cmdIdx then AmdCmd.mk a v else st.cmd i,
      cmdIdx := st.cmdIdx + 1 }
  exact h

/-- After any `write` the command index is at most 5. -/
theorem write_cmdIdx_le (cfg : FlashCfg) (st : FlashState) (a v : Nat) :
    (write cfg st a v).cmdIdx ≤ 5 := by
  rcases write_cmdIdx cfg st a v with ⟨he, hb⟩ | h0 <;> omega

/-- Sequences of writes keep the command index at most 5. -/
theorem execWrites_cmdIdx_le (cfg : FlashCfg) :
    ∀ (ws : List (Nat × Nat)) (s : FlashState), s.cmdIdx ≤ 5 →
      (execWrites cfg s ws).cmdIdx ≤ 5 := by
  intro ws
  induction ws with
  | nil => intro s h; exact h
  | cons w rest ih =>
    intro s h
    obtain ⟨a, v⟩ := w
    exact ih _ (write_cmdIdx_le cfg s a v)

/-- C8: starting from the reset state (`cmdIdx = 0`, `ST_IDLE`), after
every finite sequence of `write` calls the command index is at most 5 and
hence below `MAX_CMD_SIZE`, so the assertion at the start of `write`
never fails; moreover each single `write` either extends a still-matching
command prefix by one buffered byte or resets the index to 0. -/
theorem write_cmdIdx_bounded (cfg : FlashCfg) (st : FlashState)
    (ws : List (Nat × Nat)) :
    (execWrites cfg (reset st) ws).cmdIdx ≤ 5 ∧
    (execWrites cfg (reset st) ws).cmdIdx < MAX_CMD_SIZE ∧
    (∀ s a v, (write cfg s a v).cmdIdx = s.cmdIdx + 1 ∨
      (write cfg s a v).cmdIdx = 0) := by
  have h0 : (reset st).cmdIdx ≤ 5 := by rw [reset_cmdIdx]; omega
  have hle := execWrites_cmdIdx_le cfg ws (reset st) h0
  refine ⟨hle, ?_, ?_⟩
  · have : MAX_CMD_SIZE = 8 := rfl
    omega
  · intro s a v
    rcases write_cmdIdx cfg s a v with ⟨he, -⟩ | h0 <;> [exact Or.inl he; exact Or.inr h0]

/-- C10: `read` returns the same value as `peek` and leaves the entire
flash state unchanged — command buffer, command index, mode state and RAM
contents included; reads never advance or reset the command matcher. -/
theorem flash_read_is_peek_pure (cfg : FlashCfg) (st : FlashState) (a : Nat) :
    (read cfg st a).1 = peek cfg st a ∧
    (read cfg st a).2 = st ∧
    (read cfg st a).2.cmd = st.cmd ∧
    (read cfg st a).2.cmdIdx = st.cmdIdx ∧
    (read cfg st a).2.state = st.state ∧
    (read cfg st a).2.ram = st.ram :=
  ⟨rfl, rfl, rfl, rfl, rfl, rfl⟩

end AmdFlash

/-! ## Theorems about the PAC cartridge -/

namespace MSXPac

/-- `checkSramEnable` always leaves the state satisfying the invariant. -/
theorem checkSramEnable_Inv (st : PacState) : Inv (checkSramEnable st) := by
  unfold checkSramEnable Inv
  by_cases h : st.sramEnabled = (st.r1ffe == 0x4D && st.r1fff == 0x69)
  · simp [h]
  · have hb : (st.sramEnabled != (st.r1ffe == 0x4D && st.r1fff == 0x69)) = true :=
      bne_iff_ne.mpr h
    simp [hb]

/-- C9: the flag `sramEnabled` holds exactly when `r1ffe = 0x4D` and
`r1fff = 0x69` after a reset (the constructor ends in one) and after
every `writeMem`; consequently whenever that register condition is false,
`readMem` returns 0xFF for every address. -/
theorem pac_sramEnabled_invariant :
    (∀ st t, Inv (reset st t)) ∧
    (∀ st a v t, Inv st → Inv (writeMem st a v t)) ∧
    (∀ st a t, Inv st → ¬(st.r1ffe = 0x4D ∧ st.r1fff = 0x69) →
      readMem st a t = 0xFF) := by
  refine ⟨?_, ?_, ?_⟩
  · intro st t
    simp [reset, Inv]
  · intro st a v t hInv
    simp only [writeMem]
    split
    · exact checkSramEnable_Inv _
    · split
      · exact checkSramEnable_Inv _
      · split
        · simpa [Inv] using hInv
        · exact hInv
  · intro st a t hInv hcond
    have hfalse : st.sramEnabled = false := by
      rw [hInv]
      cases h1 : (st.r1ffe == 0x4D) <;> cases h2 : (st.r1fff == 0x69) <;>
        simp_all [beq_iff_eq]
    simp [readMem, hfalse]

/-- Witness for C9 at concrete PAC states. -/
theorem pac_sramEnabled_invariant_witness :
    Inv (reset (PacState.mk (fun _ => 0) 0x4D 0x69 true []) 0) ∧
    Inv (writeMem (PacState.mk (fun _ => 0) 0xFF 0xFF false []) 0x1FFE 0x4D 0) ∧
    readMem (PacState.mk (fun _ => 0) 0xFF 0xFF false []) 0x100 0 = 0xFF :=
  ⟨pac_sramEnabled_invariant.1 _ 0,
   pac_sramEnabled_invariant.2.1 _ 0x1FFE 0x4D 0 rfl,
   pac_sramEnabled_invariant.2.2 _ 0x100 0 rfl (by decide)⟩

end MSXPac

/-- C3: a mode change alters which bytes the device returns, so the cache
is invalidated coarsely over the full 0x0000..0x10000 range — by
`AmdFlash::setState` when called with a state different from the current
one, and by `MSXPac::checkSramEnable` when the SRAM-enable condition
flipped; when the new mode equals the current one, no invalidation is
issued and the device state is left entirely unchanged. -/
theorem modeChange_invalidates_full_range (fst : AmdFlash.FlashState)
    (s : AmdFlash.State) (pst : MSXPac.PacState) :
    (fst.state ≠ s →
      (AmdFlash.setState fst s).state = s ∧
      (AmdFlash.setState fst s).invalidations =
        fst.invalidations ++ [(0x0000, 0x10000)] ∧
      (AmdFlash.setState fst s).ram = fst.ram ∧
      (AmdFlash.setState fst s).cmd = fst.cmd ∧
      (AmdFlash.setState fst s).cmdIdx = fst.cmdIdx) ∧
    (fst.state = s → AmdFlash.setState fst s = fst) ∧
    (pst.sramEnabled ≠ (pst.r1ffe == 0x4D && pst.r1fff == 0x69) →
      (MSXPac.checkSramEnable pst).sramEnabled =
        (pst.r1ffe == 0x4D && pst.r1fff == 0x69) ∧
      (MSXPac.checkSramEnable pst).invalidations =
        pst.invalidations ++ [(0x0000, 0x10000)] ∧
      (MSXPac.checkSramEnable pst).sram = pst.sram ∧
      (MSXPac.checkSramEnable pst).r1ffe = pst.r1ffe ∧
      (MSXPac.checkSramEnable pst).r1fff = pst.r1fff) ∧
    (pst.sramEnabled = (pst.r1ffe == 0x4D && pst.r1fff == 0x69) →
      MSXPac.checkSramEnable pst = pst) := by
  refine ⟨?_, ?_, ?_, ?_⟩
  · intro h
    simp [AmdFlash.setState, AmdFlash.invalidateMemCache, h]
  · intro h
    simp [AmdFlash.setState, h]
  · intro h
    have hb : (pst.sramEnabled != (pst.r1ffe == 0x4D && pst.r1fff == 0x69)) = true :=
      bne_iff_ne.mpr h
    simp [MSXPac.checkSramEnable, hb]
  · intro h
    simp [MSXPac.checkSramEnable, h]

/-- Witness for C3 at concrete device states, one per branch. -/
theorem modeChange_invalidates_full_range_witness :
    (AmdFlash.setState
        (AmdFlash.FlashState.mk (fun _ => 0) (fun _ => AmdFlash.AmdCmd.mk 0 0) 0
          AmdFlash.State.ST_IDLE false []) AmdFlash.State.ST_IDENT).invalidations =
      [(0x0000, 0x10000)] ∧
    AmdFlash.setState
        (AmdFlash.FlashState.mk (fun _ => 0) (fun _ => AmdFlash.AmdCmd.mk 0 0) 0
          AmdFlash.State.ST_IDLE false []) AmdFlash.State.ST_IDLE =
      AmdFlash.FlashState.mk (fun _ => 0) (fun _ => AmdFlash.AmdCmd.mk 0 0) 0
        AmdFlash.State.ST_IDLE false [] ∧
    (MSXPac.checkSramEnable
        (MSXPac.PacState.mk (fun _ => 0) 0x4D 0x69 false [])).invalidations =
      [(0x0000, 0x10000)] ∧
    MSXPac.checkSramEnable (MSXPac.PacState.mk (fun _ => 0) 0x00 0x00 false []) =
      MSXPac.PacState.mk (fun _ => 0) 0x00 0x00 false [] := by
  have h1 := modeChange_invalidates_full_range
    (AmdFlash.FlashState.mk (fun _ => 0) (fun _ => AmdFlash.AmdCmd.mk 0 0) 0
      AmdFlash.State.ST_IDLE false []) AmdFlash.State.ST_IDENT
    (MSXPac.PacState.mk (fun _ => 0) 0x4D 0x69 false [])
  have h2 := modeChange_invalidates_full_range
    (AmdFlash.FlashState.mk (fun _ => 0) (fun _ => AmdFlash.AmdCmd.mk 0 0) 0
      AmdFlash.State.ST_IDLE false []) AmdFlash.State.ST_IDLE
    (MSXPac.PacState.mk (fun _ => 0) 0x00 0x00 false [])
  exact ⟨(h1.1 (by decide)).2.1, h2.2.1 rfl, (h1.2.2.1 (by decide)).2.1,
    h2.2.2.2 (by decide)⟩

end OpenMSX
